import Mathlib

set_option maxRecDepth 8000

/-!
Shallow embedding of the code-generation agent of
src/backend/src/agent/codeAgent.js (the current revision, lines 1-432),
together with models of the external primitives that file calls into:
the JavaScript JSON.parse / JSON.stringify builtins and the createPatch
function of the npm diff package (jsdiff).  Filesystem and network
effects are made explicit: the outcome of one git clone of the fixed
(repoUrl, branch) pair is a parameter, and every embedded operation
additionally reports how many clones it performed.
-/

namespace VoiceCoordinator

/-- JSON values as produced by JSON.parse.  A number is kept exactly as a
decimal mantissa times a power of ten; the agent code only ever observes a
number through JavaScript truthiness, which this representation preserves
(the value is zero iff the mantissa is zero). -/
inductive Json where
  | null : Json
  | bool : Bool → Json
  | num : Int → Int → Json
  | str : String → Json
  | arr : List Json → Json
  | obj : List (String × Json) → Json

/-- JavaScript property access o.k on a parsed JSON value: an object yields
its last binding for the key (JSON.parse keeps the last duplicate), any
other value yields undefined, encoded here as none. -/
def jsProp : Json → String → Option Json
  | .obj fields, k => (fields.reverse.find? (fun f => decide (f.1 = k))).map (·.2)
  | _, _ => none

/-- JavaScript truthiness of a possibly-undefined value: undefined, null,
false, 0 and the empty string are falsy, everything else is truthy. -/
def jsTruthy : Option Json → Bool
  | none => false
  | some .null => false
  | some (.bool b) => b
  | some (.num m _) => !decide (m = 0)
  | some (.str s) => !decide (s = "")
  | some (.arr _) => true
  | some (.obj _) => true

/-- Array.isArray of a possibly-undefined value. -/
def isArrayJ : Option Json → Bool
  | some (.arr _) => true
  | _ => false

/-- JSON whitespace characters accepted by JSON.parse. -/
def jsonWs (c : Char) : Bool :=
  decide (c = ' ') || decide (c = '\t') || decide (c = '\n') || decide (c = '\r')

/-- Skip leading JSON whitespace. -/
def skipWs : List Char → List Char
  | [] => []
  | c :: cs => if jsonWs c then skipWs cs else c :: cs

/-- Value of a hexadecimal digit. -/
def hexVal (c : Char) : Option Nat :=
  if 48 ≤ c.toNat ∧ c.toNat ≤ 57 then some (c.toNat - 48)
  else if 97 ≤ c.toNat ∧ c.toNat ≤ 102 then some (c.toNat - 87)
  else if 65 ≤ c.toNat ∧ c.toNat ≤ 70 then some (c.toNat - 55)
  else none

/-- Is a decimal digit. -/
def isDig (c : Char) : Bool := decide (48 ≤ c.toNat) && decide (c.toNat ≤ 57)

/-- Take a maximal run of decimal digits, returned as digit values. -/
def takeDigits : List Char → List Nat × List Char
  | [] => ([], [])
  | c :: cs =>
    if isDig c then
      let (ds, r) := takeDigits cs
      ((c.toNat - 48) :: ds, r)
    else ([], c :: cs)

/-- Digits to the natural number they denote. -/
def digitsToNat (ds : List Nat) : Nat := ds.foldl (fun a d => a * 10 + d) 0

/-- Body of a JSON string literal (after the opening quote), with the
standard escapes; raw control characters are rejected as JSON.parse does.
Fuel decreases on every consumed character. -/
def parseJsonStrAux : Nat → List Char → List Char → Option (String × List Char)
  | 0, _, _ => none
  | _ + 1, _, [] => none
  | fuel + 1, acc, c :: rest =>
    if decide (c = '"') then some (String.mk acc.reverse, rest)
    else if decide (c = '\\') then
      match rest with
      | [] => none
      | e :: rest1 =>
        if decide (e = '"') then parseJsonStrAux fuel ('"' :: acc) rest1
        else if decide (e = '\\') then parseJsonStrAux fuel ('\\' :: acc) rest1
        else if decide (e = '/') then parseJsonStrAux fuel ('/' :: acc) rest1
        else if decide (e = 'b') then parseJsonStrAux fuel ('\x08' :: acc) rest1
        else if decide (e = 'f') then parseJsonStrAux fuel ('\x0c' :: acc) rest1
        else if decide (e = 'n') then parseJsonStrAux fuel ('\n' :: acc) rest1
        else if decide (e = 'r') then parseJsonStrAux fuel ('\r' :: acc) rest1
        else if decide (e = 't') then parseJsonStrAux fuel ('\t' :: acc) rest1
        else if decide (e = 'u') then
          match rest1 with
          | h1 :: h2 :: h3 :: h4 :: rest2 =>
            match hexVal h1, hexVal h2, hexVal h3, hexVal h4 with
            | some a, some b, some c3, some d =>
              parseJsonStrAux fuel (Char.ofNat (((a * 16 + b) * 16 + c3) * 16 + d) :: acc) rest2
            | _, _, _, _ => none
          | _ => none
        else none
    else if decide (c.toNat < 32) then none
    else parseJsonStrAux fuel (c :: acc) rest

/-- A JSON number literal: optional minus, integer part without leading
zeros, optional fraction, optional exponent.  Returns mantissa and decimal
exponent. -/
def parseJsonNum (cs0 : List Char) : Option ((Int × Int) × List Char) :=
  let (neg, cs1) :=
    match cs0 with
    | c :: r => if decide (c = '-') then (true, r) else (false, cs0)
    | [] => (false, cs0)
  let (intDs, cs2) := takeDigits cs1
  if decide (intDs = []) then none
  else if decide (2 ≤ intDs.length) ∧ decide (intDs.headD 1 = 0) then none
  else
    let (fracDs, cs3) :=
      match cs2 with
      | c :: r =>
        if decide (c = '.') then
          let (ds, r2) := takeDigits r
          (some ds, r2)
        else (none, cs2)
      | [] => (none, cs2)
    match fracDs with
    | some [] => none
    | _ =>
      let fds := fracDs.getD []
      let expPart : Option (Option (Int × List Char)) :=
        match cs3 with
        | c :: r =>
          if decide (c = 'e') || decide (c = 'E') then
            let (esign, r1) :=
              match r with
              | c2 :: r2 =>
                if decide (c2 = '+') then ((1 : Int), r2)
                else if decide (c2 = '-') then ((-1 : Int), r2)
                else ((1 : Int), r)
              | [] => ((1 : Int), r)
            let (eds, r3) := takeDigits r1
            if decide (eds = []) then none else some (some (esign * (digitsToNat eds : Int), r3))
          else some none
        | [] => some none
      match expPart with
      | none => none
      | some none =>
        let mant : Int := (if neg then -1 else 1) * (digitsToNat (intDs ++ fds) : Int)
        some ((mant, -(fds.length : Int)), cs3)
      | some (some (ev, cs4)) =>
        let mant : Int := (if neg then -1 else 1) * (digitsToNat (intDs ++ fds) : Int)
        some ((mant, ev - (fds.length : Int)), cs4)

/-- Does the input start with the given literal word? -/
def startsWithChars : List Char → List Char → Option (List Char)
  | [], cs => some cs
  | _ :: _, [] => none
  | w :: ws, c :: cs => if decide (w = c) then startsWithChars ws cs else none

mutual

/-- One JSON value (JSON.parse grammar).  Fuel decreases on every
recursive call; the top-level entry point supplies enough fuel for any
input of the given length. -/
def parseJsonVal : Nat → List Char → Option (Json × List Char)
  | 0, _ => none
  | fuel + 1, cs0 =>
    let cs := skipWs cs0
    match cs with
    | [] => none
    | c :: rest =>
      if decide (c = '"') then
        match parseJsonStrAux (rest.length + 1) [] rest with
        | some (s, r) => some (.str s, r)
        | none => none
      else if decide (c = '{') then
        let r := skipWs rest
        match r with
        | c2 :: r2 => if decide (c2 = '}') then some (.obj [], r2) else parseJsonMembers fuel r []
        | [] => none
      else if decide (c = '[') then
        let r := skipWs rest
        match r with
        | c2 :: r2 => if decide (c2 = ']') then some (.arr [], r2) else parseJsonElems fuel r []
        | [] => none
      else
        match startsWithChars ['t', 'r', 'u', 'e'] cs with
        | some r => some (.bool true, r)
        | none =>
          match startsWithChars ['f', 'a', 'l', 's', 'e'] cs with
          | some r => some (.bool false, r)
          | none =>
            match startsWithChars ['n', 'u', 'l', 'l'] cs with
            | some r => some (.null, r)
            | none =>
              match parseJsonNum cs with
              | some ((m, e), r) => some (.num m e, r)
              | none => none

/-- Comma-separated array elements up to the closing bracket. -/
def parseJsonElems : Nat → List Char → List Json → Option (Json × List Char)
  | 0, _, _ => none
  | fuel + 1, cs, acc =>
    match parseJsonVal fuel cs with
    | none => none
    | some (v, r) =>
      let r2 := skipWs r
      match r2 with
      | c :: r3 =>
        if decide (c = ',') then parseJsonElems fuel r3 (v :: acc)
        else if decide (c = ']') then some (.arr (v :: acc).reverse, r3)
        else none
      | [] => none

/-- Comma-separated object members up to the closing brace. -/
def parseJsonMembers : Nat → List Char → List (String × Json) → Option (Json × List Char)
  | 0, _, _ => none
  | fuel + 1, cs, acc =>
    let cs1 := skipWs cs
    match cs1 with
    | c :: rest =>
      if decide (c = '"') then
        match parseJsonStrAux (rest.length + 1) [] rest with
        | none => none
        | some (k, r) =>
          let r1 := skipWs r
          match r1 with
          | c2 :: r2 =>
            if decide (c2 = ':') then
              match parseJsonVal fuel r2 with
              | none => none
              | some (v, r3) =>
                let r4 := skipWs r3
                match r4 with
                | c3 :: r5 =>
                  if decide (c3 = ',') then parseJsonMembers fuel r5 ((k, v) :: acc)
                  else if decide (c3 = '}') then some (.obj (acc.reverse ++ [(k, v)]), r5)
                  else none
                | [] => none
            else none
          | [] => none
      else none
    | [] => none

end

/-- JSON.parse: parse one value surrounded by only whitespace. -/
def parseJsonTop (s : String) : Option Json :=
  let cs := s.data
  match parseJsonVal (2 * cs.length + 16) cs with
  | some (j, rest) => if decide (skipWs rest = []) then some j else none
  | none => none

/-- Hexadecimal digit character for a value below 16. -/
def hexDigitChar (n : Nat) : Char :=
  if n < 10 then Char.ofNat (48 + n) else Char.ofNat (87 + n)

/-- JSON.stringify escaping of one character. -/
def escapeJsonChar (c : Char) : List Char :=
  if decide (c = '"') then ['\\', '"']
  else if decide (c = '\\') then ['\\', '\\']
  else if decide (c = '\n') then ['\\', 'n']
  else if decide (c = '\r') then ['\\', 'r']
  else if decide (c = '\t') then ['\\', 't']
  else if decide (c = '\x08') then ['\\', 'b']
  else if decide (c = '\x0c') then ['\\', 'f']
  else if decide (c.toNat < 32) then
    ['\\', 'u', '0', '0', hexDigitChar (c.toNat / 16), hexDigitChar (c.toNat % 16)]
  else [c]

/-- JSON.stringify of a string. -/
def escapeJsonStr (s : String) : String :=
  String.mk ('"' :: (s.data.map escapeJsonChar).flatten ++ ['"'])

/-- Rendering of a stored decimal number (mantissa times power of ten). -/
def stringifyNum (m e : Int) : String :=
  if decide (e = 0) then toString m else toString m ++ "e" ++ toString e

mutual

/-- JSON.stringify (no indentation), as used for tool-result messages. -/
def stringifyJson : Json → String
  | .null => "null"
  | .bool true => "true"
  | .bool false => "false"
  | .num m e => stringifyNum m e
  | .str s => escapeJsonStr s
  | .arr xs => "[" ++ stringifyArr xs ++ "]"
  | .obj fs => "\x7b" ++ stringifyObj fs ++ "\x7d"

/-- Comma-separated stringified array elements. -/
def stringifyArr : List Json → String
  | [] => ""
  | [x] => stringifyJson x
  | x :: y :: xs => stringifyJson x ++ "," ++ stringifyArr (y :: xs)

/-- Comma-separated stringified object members. -/
def stringifyObj : List (String × Json) → String
  | [] => ""
  | [(k, v)] => escapeJsonStr k ++ ":" ++ stringifyJson v
  | (k, v) :: y :: xs => escapeJsonStr k ++ ":" ++ stringifyJson v ++ "," ++ stringifyObj (y :: xs)

end

/-! ## Repository access (cloneRepository, listRepoFiles, getFileContent)

One invocation works against a fixed (repoUrl, branch) pair, so the
outcome of a git clone is fixed for the invocation: either a checkout,
modelled as a flat map from root-relative path to file content, or a
failure (authentication, unknown branch, network).  Every embedded
repository operation returns its result together with the number of
clone operations it performed, which makes the per-call clone behaviour
of the source observable. -/

/-- Outcome of cloning the invocation's (repoUrl, branch): a checkout as a
flat path-to-content map, or a git failure message. -/
inductive CloneOutcome where
  | ok : List (String × String) → CloneOutcome
  | fail : String → CloneOutcome

/-- The argument list passed to git.clone at codeAgent.js line 55:
a shallow depth-1 clone of the single requested branch. -/
def cloneGitArgs (branch : String) : List String :=
  ["--depth", "1", "--branch", branch]

/-- simpleGit() at codeAgent.js line 54 is constructed with no options
object, and the clone call passes only cloneGitArgs: no timeout of any
kind is configured for the clone operation. -/
def cloneTimeoutMs : Option Nat := none

/-- Whether the clone operation carries a fixed timeout. -/
def cloneOperationHasTimeout : Bool := cloneTimeoutMs.isSome

/-- cloneRepository (codeAgent.js lines 48-58): performs one git clone and
returns the checkout or propagates the git error.  The second component
counts the clone just performed. -/
def cloneRepository (env : CloneOutcome) : Except String (List (String × String)) × Nat :=
  match env with
  | .ok fs => (.ok fs, 1)
  | .fail m => (.error m, 1)

/-- A path component starting with a dot, checked on each slash-separated
component: getAllFiles (lines 66-85) skips every directory entry whose
name starts with a dot, at every level. -/
def pathHidden (p : String) : Bool :=
  (p.data.splitOn '/').any (fun comp => decide (comp.headD ' ' = '.'))

/-- getAllFiles (lines 66-85) on the flat checkout map: the root-relative
paths of all files, with dotfile entries (at any level) excluded. -/
def getAllFiles (fs : List (String × String)) : List String :=
  (fs.filter (fun e => !pathHidden e.1)).map (·.1)

/-- listRepoFiles (lines 93-106): clone, list recursively, wrap any
failure as a Failed-to-list-files error. -/
def listRepoFiles (env : CloneOutcome) : Except String (List String) × Nat :=
  match cloneRepository env with
  | (.ok fs, n) => (.ok (getAllFiles fs), n)
  | (.error m, n) => (.error ("Failed to list files: " ++ m), n)

/-- Content of the checkout file at a path, if it exists (existsSync plus
readFile; the check is on the raw checkout, dotfiles included). -/
def lookupRepoFile (fs : List (String × String)) (p : String) : Option String :=
  (fs.find? (fun e => decide (e.1 = p))).map (·.2)

/-- getFileContent (lines 115-134) generalised over how the filePath
argument arrived from parsed JSON: the clone happens first; a missing
file throws File-not-found; a non-string path makes the join call throw;
every failure is wrapped as a Failed-to-get-file-content error. -/
def getFileContentArg (env : CloneOutcome) (filePath : Option Json) :
    Except String String × Nat :=
  match cloneRepository env with
  | (.error m, n) => (.error ("Failed to get file content: " ++ m), n)
  | (.ok fs, n) =>
    match filePath with
    | some (.str p) =>
      match lookupRepoFile fs p with
      | some c => (.ok c, n)
      | none => (.error ("Failed to get file content: File not found: " ++ p), n)
    | _ =>
      (.error "Failed to get file content: The path argument must be of type string", n)

/-- getFileContent (lines 115-134) with a string path. -/
def getFileContent (env : CloneOutcome) (filePath : String) : Except String String × Nat :=
  getFileContentArg env (some (.str filePath))

/-! ## Messages and tool dispatch -/

/-- A tool call as delivered by the chat-completions API: the arguments
field is a JSON-encoded string. -/
structure ToolCall where
  id : String
  name : String
  arguments : String

/-- A message of the session transcript. -/
inductive Message where
  | system : String → Message
  | user : String → Message
  | assistant : Option String → List ToolCall → Message
  | tool : String → String → Message

/-- The tool_call_id of a tool message (other messages carry none). -/
def toolMsgId : Message → String
  | .tool id _ => id
  | _ => ""

/-- executeToolCall (lines 240-252): dispatch one parsed tool call.  Every
failure of the underlying repository operation, an unknown tool name, and
a bad filePath argument are all captured as an error payload, never
thrown.  The result is the JSON payload that will be stringified into the
tool message, plus the number of clones performed. -/
def executeToolCall (env : CloneOutcome) (toolName : String) (toolArgs : Json) : Json × Nat :=
  if decide (toolName = "list_repo_files") then
    match listRepoFiles env with
    | (.ok fs, n) => (.obj [("files", .arr (fs.map .str))], n)
    | (.error m, n) => (.obj [("error", .str m)], n)
  else if decide (toolName = "get_file_content") then
    match getFileContentArg env (jsProp toolArgs "filePath") with
    | (.ok c, n) => (.obj [("content", .str c)], n)
    | (.error m, n) => (.obj [("error", .str m)], n)
  else (.obj [("error", .str ("Unknown tool: " ++ toolName))], 0)

/-- The JavaScript expression toolArguments-or-empty-object: an empty (or
absent) arguments string is replaced by an empty JSON object text before
JSON.parse. -/
def jsArgsOrEmpty (s : String) : String := if decide (s = "") then "\x7b\x7d" else s

/-- processToolCalls (lines 324-340): execute the calls in issue order and
build one tool message per call, each tagged with its call's id.  The
JSON.parse of the arguments at line 329 is not guarded: a malformed
arguments string raises, abandoning the collected responses, which the
error case models. -/
def processToolCalls (env : CloneOutcome) : List ToolCall → Except String (List Message) × Nat
  | [] => (.ok [], 0)
  | tc :: rest =>
    match parseJsonTop (jsArgsOrEmpty tc.arguments) with
    | none => (.error ("Unexpected token in JSON: " ++ tc.arguments), 0)
    | some args =>
      let (res, n) := executeToolCall env tc.name args
      match processToolCalls env rest with
      | (.ok rs, m) => (.ok (Message.tool tc.id (stringifyJson res) :: rs), n + m)
      | (.error e, m) => (.error e, n + m)

/-! ## Final-answer parsing and validation (parseAgentResponse) -/

/-- The greedy regex match of an open-brace, anything, close-brace pattern:
it succeeds iff some close brace follows the first open brace, and then
spans from the first open brace to the last close brace of the string. -/
def extractJsonSpan (s : String) : Option String :=
  let cs := s.data
  match cs.findIdx? (fun c => decide (c = '{')) with
  | none => none
  | some i =>
    match cs.reverse.findIdx? (fun c => decide (c = '}')) with
    | none => none
    | some rj =>
      let j := cs.length - 1 - rj
      if decide (i < j) then some (String.mk ((cs.drop i).take (j - i + 1))) else none

/-- The structural validation of parseAgentResponse (lines 264-266): the
parsed value is accepted iff its summary property is truthy and its files
property is an array.  Property access on a parsed null throws a
TypeError, which the same enclosing catch receives. -/
def validateAgentResult (result : Json) : Except String Json :=
  match result with
  | .null => .error "TypeError: cannot read properties of null"
  | r =>
    if jsTruthy (jsProp r "summary") && isArrayJ (jsProp r "files") then .ok r
    else .error "Invalid response format: missing summary or files array"

/-- parseAgentResponse (lines 259-269): a null or empty content falls back
to an empty object text; the brace-to-brace span is extracted when
present; the text is JSON-parsed; then the structural validation runs.
Any failure is an error that the caller's catch will absorb. -/
def parseAgentResponse (content : Option String) : Except String Json :=
  let contentStr :=
    match content with
    | some s => if decide (s = "") then "\x7b\x7d" else s
    | none => "\x7b\x7d"
  let toParse := (extractJsonSpan contentStr).getD contentStr
  match parseJsonTop toParse with
  | none => .error "SyntaxError: Unexpected token in JSON"
  | some result => validateAgentResult result

/-! ## The diff engine (model of createPatch from the npm diff package)

createPatch is an external dependency of the repository (the jsdiff
library), so this section is modelled from that library's published
behaviour rather than from a file under src/: line tokenization keeps
each line's trailing newline; a line-level diff produces runs of kept,
removed and added lines (jsdiff uses a Myers diff; an LCS alignment is
used here, which coincides with it on the cases the theorems below rely
on, namely identical inputs and an empty old side); hunks are built with
four lines of surrounding context; formatting always emits the Index,
separator, minus-minus-minus and plus-plus-plus header lines and appends
a no-newline-at-end-of-file marker after any line missing its newline. -/

/-- jsdiff line tokenization: split into lines, each keeping its trailing
newline; a final fragment without a newline is kept iff nonempty; the
empty string yields no tokens. -/
def splitLinesAux : List Char → List Char → List String
  | [], cur => if decide (cur = []) then [] else [String.mk cur.reverse]
  | c :: rest, cur =>
    if decide (c = '\n') then String.mk (('\n' :: cur).reverse) :: splitLinesAux rest []
    else splitLinesAux rest (c :: cur)

/-- Line tokens of a string. -/
def splitLinesJs (s : String) : List String := splitLinesAux s.data []

/-- Kind of a diffed line. -/
inductive Tag where
  | keep : Tag
  | del : Tag
  | ins : Tag
deriving DecidableEq

/-- A maximal run of equally-tagged lines. -/
inductive DiffComp where
  | equal : List String → DiffComp
  | removed : List String → DiffComp
  | added : List String → DiffComp

/-- The longer of two lists (used by the LCS recursion). -/
def longerList (a b : List String) : List String :=
  if a.length < b.length then b else a

/-- Longest common subsequence of two line lists, with explicit fuel so
that the definition is structurally recursive (the wrapper supplies
sufficient fuel for any input). -/
def lcsFuel : Nat → List String → List String → List String
  | 0, _, _ => []
  | _ + 1, [], _ => []
  | _ + 1, _ :: _, [] => []
  | fuel + 1, a :: as, b :: bs =>
    if decide (a = b) then a :: lcsFuel fuel as bs
    else longerList (lcsFuel fuel (a :: as) bs) (lcsFuel fuel as (b :: bs))

/-- Longest common subsequence of two line lists. -/
def lcs (olds news : List String) : List String :=
  lcsFuel (olds.length + news.length + 1) olds news

/-- Split a list at the first occurrence of a given line: the elements
before it, and the elements after it. -/
def splitAtFirst (x : String) (l : List String) : List String × List String :=
  (l.takeWhile (fun y => !decide (y = x)),
   (l.dropWhile (fun y => !decide (y = x))).drop 1)

/-- Tagged diff lines from a common subsequence: lines absent from the
subsequence are removals on the old side and insertions on the new side,
emitted removals-first before each kept line, as jsdiff does. -/
def diffGo : List String → List String → List String → List (Tag × String)
  | [], olds, news => olds.map (fun s => (Tag.del, s)) ++ news.map (fun s => (Tag.ins, s))
  | x :: ls, olds, news =>
    let od := splitAtFirst x olds
    let nd := splitAtFirst x news
    od.1.map (fun s => (Tag.del, s)) ++ nd.1.map (fun s => (Tag.ins, s))
      ++ (Tag.keep, x) :: diffGo ls od.2 nd.2

/-- The tag of a run. -/
def compTag : DiffComp → Tag
  | .equal _ => .keep
  | .removed _ => .del
  | .added _ => .ins

/-- A one-line run. -/
def singletonComp (t : Tag) (s : String) : DiffComp :=
  match t with
  | .keep => .equal [s]
  | .del => .removed [s]
  | .ins => .added [s]

/-- Prepend a line to a run. -/
def consInto (s : String) : DiffComp → DiffComp
  | .equal ls => .equal (s :: ls)
  | .removed ls => .removed (s :: ls)
  | .added ls => .added (s :: ls)

/-- Group tagged lines into maximal runs. -/
def groupTags : List (Tag × String) → List DiffComp
  | [] => []
  | (t, s) :: rest =>
    match groupTags rest with
    | [] => [singletonComp t s]
    | c :: cs => if compTag c = t then consInto s c :: cs else singletonComp t s :: c :: cs

/-- Line diff of two token lists as runs of kept, removed and added
lines. -/
def diffComps (olds news : List String) : List DiffComp :=
  groupTags (diffGo (lcs olds news) olds news)

/-- One line of a hunk. -/
inductive PatchLine where
  | ctx : String → PatchLine
  | add : String → PatchLine
  | del : String → PatchLine

/-- Is a removal line. -/
def isDelLine : PatchLine → Bool
  | .del _ => true
  | _ => false

/-- A formatted hunk: the at-at header numbers and the lines. -/
structure Hunk where
  oldStart : Nat
  oldLines : Nat
  newStart : Nat
  newLines : Nat
  lines : List PatchLine

/-- A hunk being accumulated. -/
structure Pending where
  oldStart : Nat
  newStart : Nat
  oldCount : Nat
  newCount : Nat
  lines : List PatchLine

/-- jsdiff's default context window. -/
def ctxWindow : Nat := 4

/-- The last n elements of a list. -/
def takeLast (n : Nat) (l : List String) : List String := l.drop (l.length - n)

/-- Open a hunk at the current position, preceded by up to a context
window of the lines of the previous equal run. -/
def openPending (oldLine newLine : Nat) (prevEq : List String) : Pending :=
  let lead := takeLast ctxWindow prevEq
  ⟨oldLine - lead.length, newLine - lead.length, lead.length, lead.length, lead.map .ctx⟩

/-- Close a hunk with trailing context lines. -/
def closeHunk (p : Pending) (trail : List String) : Hunk :=
  ⟨p.oldStart, p.oldCount + trail.length, p.newStart, p.newCount + trail.length,
   p.lines ++ trail.map .ctx⟩

/-- Hunk construction over the runs, tracking one-based old and new line
positions: a change opens a hunk when none is pending; an equal run short
enough to fit inside twice the context window joins the pending hunk
unless it is the last run, which closes the hunk with up to one context
window of trailing lines. -/
def hunksLoop : List DiffComp → Nat → Nat → List String → Option Pending → List Hunk
  | [], _, _, _, none => []
  | [], _, _, _, some p => [closeHunk p []]
  | .equal ls :: rest, ol, nl, _, none =>
    hunksLoop rest (ol + ls.length) (nl + ls.length) ls none
  | .equal ls :: rest, ol, nl, _, some p =>
    if ls.length ≤ 2 * ctxWindow && !rest.isEmpty then
      hunksLoop rest (ol + ls.length) (nl + ls.length) ls
        (some ⟨p.oldStart, p.newStart, p.oldCount + ls.length, p.newCount + ls.length,
          p.lines ++ ls.map .ctx⟩)
    else
      closeHunk p (ls.take ctxWindow) :: hunksLoop rest (ol + ls.length) (nl + ls.length) ls none
  | .removed ls :: rest, ol, nl, prevEq, pnd =>
    let p := pnd.getD (openPending ol nl prevEq)
    hunksLoop rest (ol + ls.length) nl prevEq
      (some ⟨p.oldStart, p.newStart, p.oldCount + ls.length, p.newCount,
        p.lines ++ ls.map .del⟩)
  | .added ls :: rest, ol, nl, prevEq, pnd =>
    let p := pnd.getD (openPending ol nl prevEq)
    hunksLoop rest ol (nl + ls.length) prevEq
      (some ⟨p.oldStart, p.newStart, p.oldCount, p.newCount + ls.length,
        p.lines ++ ls.map .add⟩)

/-- The hunks of a diff. -/
def buildHunks (comps : List DiffComp) : List Hunk := hunksLoop comps 1 1 [] none

/-- Render one diff line: the prefix, the token with its trailing newline
stripped, and a no-newline marker line after a token that had none. -/
def renderToken (pfx : String) (s : String) : List String :=
  match s.data.reverse with
  | '\n' :: body => [pfx ++ String.mk body.reverse]
  | _ => [pfx ++ s, "\\ No newline at end of file"]

/-- Render a hunk line. -/
def renderPatchLine : PatchLine → List String
  | .ctx s => renderToken " " s
  | .add s => renderToken "+" s
  | .del s => renderToken "-" s

/-- jsdiff's 67-character separator line. -/
def eqBar : String := String.mk (List.replicate 67 '=')

/-- Render a hunk: the at-at range header, then the lines. -/
def renderHunk (h : Hunk) : List String :=
  ("@@ -" ++ toString h.oldStart ++ "," ++ toString h.oldLines
      ++ " +" ++ toString h.newStart ++ "," ++ toString h.newLines ++ " @@")
    :: (h.lines.map renderPatchLine).flatten

/-- Join lines with newlines, one trailing newline after each line (the
join-then-append-newline of jsdiff's formatPatch). -/
def renderLines : List String → String
  | [] => ""
  | l :: rest => l ++ "\n" ++ renderLines rest

/-- jsdiff formatPatch for a same-name two-file patch: the Index line, the
separator, the old and new header lines (file name, a tab, the caller's
header text), then the hunks. -/
def formatPatch (fileName oldHeader newHeader : String) (hunks : List Hunk) : String :=
  renderLines (["Index: " ++ fileName, eqBar,
    "--- " ++ fileName ++ "\t" ++ oldHeader,
    "+++ " ++ fileName ++ "\t" ++ newHeader] ++ (hunks.map renderHunk).flatten)

/-- The patch text produced when a diff has no hunks at all. -/
def headerOnlyPatch (fileName oldHeader newHeader : String) : String :=
  formatPatch fileName oldHeader newHeader []

/-- createPatch of the diff package: line-diff the two contents and format
the result with the given file name and header texts. -/
def createPatch (fileName oldStr newStr oldHeader newHeader : String) : String :=
  formatPatch fileName oldHeader newHeader
    (buildHunks (diffComps (splitLinesJs oldStr) (splitLinesJs newStr)))

/-! ## Patch generation (generateFilePatch, generatePatches) -/

/-- JavaScript string coercion of a possibly-undefined JSON value, used
only where the source lets a non-string value reach a string position
(approximate for arrays and objects, which a validated result never puts
there). -/
def jsDisplay : Option Json → String
  | none => "undefined"
  | some .null => "null"
  | some (.bool true) => "true"
  | some (.bool false) => "false"
  | some (.num m e) => stringifyNum m e
  | some (.str s) => s
  | some (.arr xs) => stringifyArr xs
  | some (.obj fs) => stringifyObj fs

/-- A produced per-file patch: the filename value the model supplied and
the patch text. -/
structure FilePatch where
  filename : Json
  patch : String

/-- A well-formed files entry, as the system prompt requests. -/
def mkFileEntry (fn nc : String) : Json :=
  .obj [("filename", .str fn), ("new_content", .str nc)]

/-- generateFilePatch (lines 278-304): read the file's original content
from a fresh clone, treating EVERY failure of that read as a new file
with empty original content (the bare catch at line 283); then diff the
original against the proposed content under Original and Modified
headers.  A throw inside the try (the diff engine on a non-string
new content) is recovered per file as an embedded error text (lines
297-303). -/
def generateFilePatch (env : CloneOutcome) (file : Json) : FilePatch × Nat :=
  let fnJ := jsProp file "filename"
  let (orig, n) :=
    match getFileContentArg env fnJ with
    | (.ok c, m) => (c, m)
    | (.error _, m) => ("", m)
  match jsProp file "new_content" with
  | some (.str nc) =>
    ({filename := fnJ.getD .null,
      patch := createPatch (jsDisplay fnJ) orig nc
        ("Original " ++ jsDisplay fnJ) ("Modified " ++ jsDisplay fnJ)}, n)
  | other =>
    ({filename := fnJ.getD .null,
      patch := "Error generating patch: newStr.split is not a function"
        ++ "\n\nOriginal content:\n" ++ jsDisplay other}, n)

/-- generatePatches (lines 313-315): one patch per files entry, in order
(Promise.all preserves order); clone counts add up. -/
def generatePatches (env : CloneOutcome) : List Json → List FilePatch × Nat
  | [] => ([], 0)
  | f :: rest =>
    let (p, n) := generateFilePatch env f
    let (ps, m) := generatePatches env rest
    (p :: ps, n + m)

/-! ## The agent loop (runAgentLoop, generateCodeFromConversation) -/

/-- The value returned to the caller: the summary value the model supplied
and the per-file patches. -/
structure GenerationResult where
  summary : Json
  files : List FilePatch

/-- JavaScript substring from index zero: the first n character units. -/
def jsSubstring (s : String) (n : Nat) : String := String.mk (s.data.take n)

/-- The degraded summary of the catch at lines 388-391: a 200-character
prefix of a string content, or the fixed completion text for a non-string
content. -/
def degradedSummary : Option String → String
  | some s => jsSubstring s 200
  | none => "Code generation completed"

/-- The final-answer branch of runAgentLoop (lines 381-392): parse and
validate the content, convert the files entries to patches, and on any
failure return the degraded result with an empty files list instead of
raising. -/
def handleFinalAnswer (env : CloneOutcome) (content : Option String) :
    GenerationResult × Nat :=
  match parseAgentResponse content with
  | .ok result =>
    let filesJ :=
      match jsProp result "files" with
      | some (.arr xs) => xs
      | _ => []
    let (ps, n) := generatePatches env filesJ
    ({summary := (jsProp result "summary").getD .null, files := ps}, n)
  | .error _ => ({summary := .str (degradedSummary content), files := []}, 0)

/-- One model response: optional text content and the tool calls it
carries. -/
structure AssistantMsg where
  content : Option String
  tool_calls : List ToolCall

/-- The external model as a function of the transcript so far: one run of
the loop corresponds to one such oracle (runAgentIteration, lines
349-359, performs the network call). -/
def ModelOracle : Type := List Message → AssistantMsg

/-- How one invocation of the loop ends: a returned result, the
exceeded-maximum-iterations throw, or an uncaught exception escaping the
loop (the unguarded JSON.parse of tool arguments). -/
inductive LoopResult where
  | done : GenerationResult → LoopResult
  | exceededIterations : LoopResult
  | raised : String → LoopResult

/-- Everything observable about one run of the loop: how it ended, the
final message log, the number of chat-completion calls and the number of
git clones performed. -/
structure LoopOut where
  result : LoopResult
  log : List Message
  modelCalls : Nat
  clones : Nat

/-- The for-loop of runAgentLoop (lines 371-397), with the remaining
iteration budget as fuel: each round asks the model, appends its message,
then either executes the tool calls and appends their messages, or treats
the content as the final answer; an exhausted budget is the
exceeded-maximum-iterations error. -/
def runAgentLoopAux (env : CloneOutcome) (model : ModelOracle) :
    Nat → List Message → Nat → Nat → LoopOut
  | 0, msgs, calls, clones => ⟨.exceededIterations, msgs, calls, clones⟩
  | fuel + 1, msgs, calls, clones =>
    let am := model msgs
    let msgs2 := msgs ++ [Message.assistant am.content am.tool_calls]
    if am.tool_calls.length > 0 then
      match processToolCalls env am.tool_calls with
      | (.ok rs, n) => runAgentLoopAux env model fuel (msgs2 ++ rs) (calls + 1) (clones + n)
      | (.error e, n) => ⟨.raised e, msgs2, calls + 1, clones + n⟩
    else
      let (r, n) := handleFinalAnswer env am.content
      ⟨.done r, msgs2, calls + 1, clones + n⟩

/-- runAgentLoop (lines 371-397). -/
def runAgentLoop (env : CloneOutcome) (model : ModelOracle) (messages : List Message)
    (maxIterations : Nat) : LoopOut :=
  runAgentLoopAux env model maxIterations messages 0 0

/-- The default iteration budget of runAgentLoop. -/
def defaultMaxIterations : Nat := 10

/-- One transcript row handed to the agent. -/
structure Conversation where
  timestamp : String
  username : String
  transcription : String

/-- formatConversations (lines 141-145). -/
def formatConversations : List Conversation → String
  | [] => ""
  | [c] => "[" ++ c.timestamp ++ "] " ++ c.username ++ ": " ++ c.transcription
  | c :: d :: rest =>
    "[" ++ c.timestamp ++ "] " ++ c.username ++ ": " ++ c.transcription ++ "\n"
      ++ formatConversations (d :: rest)

/-- createSystemPrompt (lines 198-230); braces and apostrophes of the
original text are written as character escapes. -/
def createSystemPrompt (repoUrl branch : String) : String :=
  "You are an AI code generation agent. Based on the conversation transcript provided, "
    ++ "analyze the requirements and generate code changes.\n\nYour task:\n"
    ++ "1. Analyze the conversation to understand what code changes are needed\n"
    ++ "2. Use the available tools to explore the repository structure and relevant files:\n"
    ++ "   - First, call list_repo_files to see all files in the repository\n"
    ++ "   - Then, call get_file_content for each file you need to read or modify\n"
    ++ "3. After exploring the codebase, generate code changes\n"
    ++ "4. Some of the requirements may have been already met,\n"
    ++ "   only generate code changes if the requirements have not been met.\n\n"
    ++ "CRITICAL: You MUST output your final response in valid JSON format with this exact structure:\n"
    ++ "\x7b\n  \"summary\": \"A brief summary of the changes made, e.g., \x27I added ..\x27 \",\n"
    ++ "  \"files\": [\n    \x7b\n      \"filename\": \"path/to/file.js\",\n"
    ++ "      \"new_content\": \"complete file content with changes\"\n    \x7d\n  ]\n\x7d\n\n"
    ++ "Important:\n"
    ++ "- Feel free to add new files if they are not already present in the repository.\n"
    ++ "- Only include files that need to be changed or created\n"
    ++ "- Provide the complete content for each file (not just diffs)\n"
    ++ "- Make sure the code is syntactically correct and follows best practices\n"
    ++ "- The filename must be relative to the repository root (as returned by list_repo_files)\n"
    ++ "- The repository URL is: " ++ repoUrl ++ "\n"
    ++ "- The branch is: " ++ branch ++ "\n"
    ++ "- When you are ready to output the final result, respond with ONLY the JSON object, "
    ++ "no additional text before or after"

/-- The initial message log of generateCodeFromConversation (lines
414-421). -/
def initialMessages (repoUrl branch : String) (conversations : List Conversation) :
    List Message :=
  [Message.system (createSystemPrompt repoUrl branch),
   Message.user ("Based on the following conversation, generate the necessary code changes:\n\n"
     ++ formatConversations conversations)]

/-- generateCodeFromConversation (lines 406-432): build the prompts and
run the loop with the default iteration budget; the surrounding catch
only logs and rethrows, so the loop's outcome is the invocation's
outcome. -/
def generateCodeFromConversation (env : CloneOutcome) (model : ModelOracle)
    (repoUrl branch : String) (conversations : List Conversation) : LoopOut :=
  runAgentLoop env model (initialMessages repoUrl branch conversations) defaultMaxIterations

/-! ## Concrete model oracles used to evaluate the loop on closed runs -/

/-- A model that issues one well-formed tool call on every round. -/
def toolLoopForeverOracle : ModelOracle :=
  fun _ => ⟨none, [⟨"call_tools", "list_repo_files", ""⟩]⟩

/-- A model that issues a listing call and a read call on its first round
(when the log holds just the two prompts) and then answers with one
changed file. -/
def twoToolsThenDoneOracle : ModelOracle :=
  fun ms =>
    if ms.length = 2 then
      ⟨none, [⟨"call_1", "list_repo_files", ""⟩,
        ⟨"call_2", "get_file_content", "\x7b\"filePath\":\"a.txt\"\x7d"⟩]⟩
    else ⟨some "\x7b\"summary\":\"done\",\"files\":[\x7b\"filename\":\"a.txt\",\"new_content\":\"y\"\x7d]\x7d", []⟩

/-- A model whose first round carries a tool call with malformed JSON
arguments. -/
def badArgsOracle : ModelOracle :=
  fun ms =>
    if ms.length = 2 then ⟨none, [⟨"call_bad", "get_file_content", "\x7bbad"⟩]⟩
    else ⟨some "x", []⟩

/-! ## General lemmas about the embedding -/

theorem string_data_append (a b : String) : (a ++ b).data = a.data ++ b.data := by
  cases a; cases b; rfl

theorem string_append_assoc (a b c : String) : a ++ b ++ c = a ++ (b ++ c) := by
  cases a; cases b; cases c
  show String.mk _ = String.mk _
  rw [List.append_assoc]

theorem string_length_append (a b : String) : (a ++ b).length = a.length + b.length := by
  cases a; cases b
  show List.length _ = _
  simp [String.length]

theorem string_empty_append (s : String) : "" ++ s = s := by
  cases s; rfl

theorem renderLines_append (a b : List String) :
    renderLines (a ++ b) = renderLines a ++ renderLines b := by
  induction a with
  | nil => simp [renderLines, string_empty_append]
  | cons l ls ih =>
    show l ++ "\n" ++ renderLines (ls ++ b) = l ++ "\n" ++ renderLines ls ++ renderLines b
    rw [ih, ← string_append_assoc]

theorem renderLines_cons_ne_empty (l : String) (rest : List String) :
    renderLines (l :: rest) ≠ "" := by
  intro h
  have hl := congrArg String.length h
  simp only [renderLines] at hl
  rw [string_length_append, string_length_append] at hl
  rw [show String.length "\n" = 1 from rfl, show String.length "" = 0 from rfl] at hl
  omega

theorem jsSubstring_prefix (s : String) (n : Nat) :
    s = jsSubstring s n ++ String.mk (s.data.drop n) := by
  cases s with
  | mk d =>
    show String.mk d = String.mk (d.take n ++ d.drop n)
    rw [List.take_append_drop]

theorem lcsFuel_self (as : List String) : ∀ (fuel : Nat), as.length ≤ fuel →
    lcsFuel fuel as as = as := by
  induction as with
  | nil => intro fuel _; cases fuel <;> rfl
  | cons a as ih =>
    intro fuel h
    cases fuel with
    | zero => simp at h
    | succ f =>
      have hf : as.length ≤ f := by simp at h; omega
      simp [lcsFuel, ih f hf]

theorem lcs_self (L : List String) : lcs L L = L :=
  lcsFuel_self L _ (by omega)

theorem diffGo_self (as : List String) :
    diffGo as as as = as.map (fun s => (Tag.keep, s)) := by
  induction as with
  | nil => rfl
  | cons x xs ih =>
    simp [diffGo, splitAtFirst, ih]

theorem groupTags_keep (xs : List String) : ∀ (x : String),
    groupTags ((x :: xs).map (fun s => (Tag.keep, s))) = [.equal (x :: xs)] := by
  induction xs with
  | nil => intro x; rfl
  | cons y ys ih =>
    intro x
    show groupTags ((Tag.keep, x) :: (Tag.keep, y) :: List.map (fun s => (Tag.keep, s)) ys) = _
    rw [show groupTags ((Tag.keep, x) :: (Tag.keep, y) :: List.map (fun s => (Tag.keep, s)) ys)
        = (match groupTags ((Tag.keep, y) :: List.map (fun s => (Tag.keep, s)) ys) with
          | [] => [singletonComp Tag.keep x]
          | c :: cs => if compTag c = Tag.keep then consInto x c :: cs
            else singletonComp Tag.keep x :: c :: cs) from rfl]
    rw [show ((Tag.keep, y) :: List.map (fun s => (Tag.keep, s)) ys)
        = (y :: ys).map (fun s => (Tag.keep, s)) from rfl, ih y]
    rfl

theorem groupTags_ins (xs : List String) : ∀ (x : String),
    groupTags ((x :: xs).map (fun s => (Tag.ins, s))) = [.added (x :: xs)] := by
  induction xs with
  | nil => intro x; rfl
  | cons y ys ih =>
    intro x
    show groupTags ((Tag.ins, x) :: (Tag.ins, y) :: List.map (fun s => (Tag.ins, s)) ys) = _
    rw [show groupTags ((Tag.ins, x) :: (Tag.ins, y) :: List.map (fun s => (Tag.ins, s)) ys)
        = (match groupTags ((Tag.ins, y) :: List.map (fun s => (Tag.ins, s)) ys) with
          | [] => [singletonComp Tag.ins x]
          | c :: cs => if compTag c = Tag.ins then consInto x c :: cs
            else singletonComp Tag.ins x :: c :: cs) from rfl]
    rw [show ((Tag.ins, y) :: List.map (fun s => (Tag.ins, s)) ys)
        = (y :: ys).map (fun s => (Tag.ins, s)) from rfl, ih y]
    rfl

theorem buildHunks_diff_self (L : List String) : buildHunks (diffComps L L) = [] := by
  unfold diffComps
  rw [lcs_self, diffGo_self]
  cases L with
  | nil => rfl
  | cons x xs =>
    rw [groupTags_keep]
    rfl

theorem diffComps_nil_cons (x : String) (xs : List String) :
    diffComps [] (x :: xs) = [.added (x :: xs)] := by
  unfold diffComps
  rw [show lcs [] (x :: xs) = [] from rfl]
  show groupTags ((x :: xs).map (fun s => (Tag.ins, s))) = _
  rw [groupTags_ins]

theorem buildHunks_added (ls : List String) :
    buildHunks [DiffComp.added ls] = [⟨1, 0, 1, ls.length, ls.map .add⟩] := by
  simp [buildHunks, hunksLoop, openPending, closeHunk, takeLast, ctxWindow]

theorem countP_eq_one_of_nodup (l : List String) (a : String) : l.Nodup → a ∈ l →
    l.countP (fun b => decide (b = a)) = 1 := by
  induction l with
  | nil => intro _ h; cases h
  | cons x xs ih =>
    intro hnd hmem
    rw [List.nodup_cons] at hnd
    rw [List.countP_cons]
    rcases List.mem_cons.mp hmem with heq | hm
    · subst heq
      have hz : xs.countP (fun b => decide (b = a)) = 0 := by
        rw [List.countP_eq_zero]
        intro b hb
        simp only [decide_eq_true_eq]
        intro hba
        exact hnd.1 (hba ▸ hb)
      simp [hz]
    · have hx : ¬ (x = a) := by
        intro hxa
        exact hnd.1 (hxa ▸ hm)
      rw [ih hnd.2 hm]
      simp [hx]


/-- C7, counterexample: the claim says the patch of identical before and
after content is the empty string; at the concrete input filename a.txt
and content x, the patch produced by createPatch is not the empty string
(it is the four header lines), so that proposition is False. -/
theorem claim_c7_counterexample :
    (createPatch "a.txt" "x" "x" "Original a.txt" "Modified a.txt" = "") = False :=
  eq_false (by decide)

/-- C7, amended: for every filename, content and header pair, the patch of
identical before and after content is the header-only patch (Index line,
separator line, the two file header lines) with no hunks at all; it is
never the empty string. -/
theorem claim_c7_amended (f c oh nh : String) :
    createPatch f c c oh nh = headerOnlyPatch f oh nh ∧ headerOnlyPatch f oh nh ≠ "" := by
  constructor
  · unfold createPatch
    rw [buildHunks_diff_self]
    rfl
  · unfold headerOnlyPatch formatPatch
    exact renderLines_cons_ne_empty _ _

/-- C9, counterexample: the claim says the clone operation carries a fixed
timeout; in the source, simpleGit is constructed with no options and the
clone call passes only the depth and branch arguments, so no timeout is
configured. -/
theorem claim_c9_counterexample : cloneOperationHasTimeout = false := rfl

/-- C9, amended: every repository checkout is performed as a shallow
depth-1 clone of the single requested branch, but no timeout is
configured for the clone operation; clone failures (authentication,
unknown branch) surface as errors wrapped by the callers as
Failed-to-list-files or Failed-to-get-file-content messages. -/
theorem claim_c9_amended :
    (∀ b, cloneGitArgs b = ["--depth", "1", "--branch", b]) ∧
    cloneTimeoutMs = none ∧
    (∀ m, (listRepoFiles (.fail m)).1 = .error ("Failed to list files: " ++ m)) ∧
    (∀ m p, (getFileContent (.fail m) p).1 = .error ("Failed to get file content: " ++ m)) :=
  ⟨fun _ => rfl, rfl, fun _ => rfl, fun _ _ => rfl⟩

/-- C6, counterexample: the claim says an empty-string summary validates
successfully; the validator tests JavaScript truthiness of the summary
property, the empty string is falsy, so the object with empty summary and
empty files array is rejected with the invalid-response-format error. -/
theorem claim_c6_counterexample :
    parseAgentResponse (some "\x7b\"summary\":\"\",\"files\":[]\x7d")
      = .error "Invalid response format: missing summary or files array" := rfl

/-- C6, amended: the validator accepts a parsed final-answer value exactly
when its summary property is truthy and its files property is an array;
hence the empty-string summary is rejected (as are objects missing
summary or missing files), while any truthy non-string summary is
accepted and the shape of the files elements is not checked at all. -/
theorem claim_c6_amended :
    (∀ j : Json, validateAgentResult j = .ok j ↔
      (jsTruthy (jsProp j "summary") = true ∧ isArrayJ (jsProp j "files") = true)) ∧
    parseAgentResponse (some "\x7b\"summary\":\"x\"\x7d")
      = .error "Invalid response format: missing summary or files array" ∧
    parseAgentResponse (some "\x7b\"files\":[]\x7d")
      = .error "Invalid response format: missing summary or files array" ∧
    parseAgentResponse (some "\x7b\"summary\":\"\",\"files\":[]\x7d")
      = .error "Invalid response format: missing summary or files array" ∧
    parseAgentResponse (some "\x7b\"summary\":\"ok\",\"files\":[]\x7d")
      = .ok (.obj [("summary", .str "ok"), ("files", .arr [])]) ∧
    parseAgentResponse (some "\x7b\"summary\":\"ok\",\"files\":[1,2]\x7d")
      = .ok (.obj [("summary", .str "ok"), ("files", .arr [.num 1 0, .num 2 0])]) ∧
    parseAgentResponse (some "\x7b\"summary\":5,\"files\":[]\x7d")
      = .ok (.obj [("summary", .num 5 0), ("files", .arr [])]) := by
  refine ⟨?_, rfl, rfl, rfl, rfl, rfl, rfl⟩
  intro j
  cases j with
  | null => simp [validateAgentResult, jsProp, jsTruthy]
  | bool b => simp [validateAgentResult, jsProp, jsTruthy]
  | num m e => simp [validateAgentResult, jsProp, jsTruthy]
  | str s => simp [validateAgentResult, jsProp, jsTruthy]
  | arr xs => simp [validateAgentResult, jsProp, jsTruthy]
  | obj fields =>
    simp only [validateAgentResult]
    cases hA : jsTruthy (jsProp (.obj fields) "summary") <;>
      cases hB : isArrayJ (jsProp (.obj fields) "files") <;> simp [hA, hB]

/-- C2, counterexample: the claim says the checkout is acquired at most
once per invocation; a concrete invocation in which the model issues one
list_repo_files call and one get_file_content call and then returns one
changed file performs three clones (one per tool dispatch and one for the
patch original-content read), which is more than one. -/
theorem claim_c2_counterexample :
    (generateCodeFromConversation (.ok [("a.txt", "x")]) twoToolsThenDoneOracle
      "https://example.com/r.git" "main" []).clones = 3 ∧
    ¬ ((generateCodeFromConversation (.ok [("a.txt", "x")]) twoToolsThenDoneOracle
      "https://example.com/r.git" "main" []).clones ≤ 1) := by
  constructor
  · rfl
  · intro hle
    have h3 : (generateCodeFromConversation (.ok [("a.txt", "x")]) twoToolsThenDoneOracle
      "https://example.com/r.git" "main" []).clones = 3 := rfl
    omega

/-- C2, amended: there is no shared snapshot: every repository access
performs its own fresh clone — each listRepoFiles call, each
getFileContent call, and each per-file original-content read inside
generateFilePatch performs exactly one clone, whatever the clone
outcome. -/
theorem claim_c2_amended (env : CloneOutcome) :
    (listRepoFiles env).2 = 1 ∧
    (∀ p, (getFileContent env p).2 = 1) ∧
    (∀ fn nc, (generateFilePatch env (mkFileEntry fn nc)).2 = 1) := by
  refine ⟨?_, ?_, ?_⟩
  · cases env <;> rfl
  · intro p
    cases env with
    | fail m => rfl
    | ok fs =>
      show (getFileContentArg (.ok fs) (some (.str p))).2 = 1
      simp only [getFileContentArg, cloneRepository]
      cases lookupRepoFile fs p <;> rfl
  · intro fn nc
    have hfn : jsProp (mkFileEntry fn nc) "filename" = some (.str fn) := rfl
    have hnc : jsProp (mkFileEntry fn nc) "new_content" = some (.str nc) := rfl
    simp only [generateFilePatch, hfn, hnc]
    cases env with
    | fail m => rfl
    | ok fs =>
      simp only [getFileContentArg, cloneRepository]
      cases lookupRepoFile fs fn <;> rfl


/-- C8: when the filename does not exist in the repository checkout, the
original-content read fails, generateFilePatch uses the empty string as
the original content, and the emitted unified diff has headers Original
filename and Modified filename, a before side with no removal lines at
all, and the standard patch header block. -/
theorem claim_c8 (fs : List (String × String)) (fn nc : String)
    (h : lookupRepoFile fs fn = none) :
    generateFilePatch (.ok fs) (mkFileEntry fn nc)
      = ({filename := .str fn,
          patch := createPatch fn "" nc ("Original " ++ fn) ("Modified " ++ fn)}, 1) ∧
    (∀ hk ∈ buildHunks (diffComps (splitLinesJs "") (splitLinesJs nc)),
      ∀ l ∈ hk.lines, isDelLine l = false) ∧
    (∃ rest, createPatch fn "" nc ("Original " ++ fn) ("Modified " ++ fn)
      = renderLines ["Index: " ++ fn, eqBar,
          "--- " ++ fn ++ "\t" ++ ("Original " ++ fn),
          "+++ " ++ fn ++ "\t" ++ ("Modified " ++ fn)] ++ rest) := by
  refine ⟨?_, ?_, ?_⟩
  · have hfn : jsProp (mkFileEntry fn nc) "filename" = some (.str fn) := rfl
    have hnc : jsProp (mkFileEntry fn nc) "new_content" = some (.str nc) := rfl
    simp only [generateFilePatch, hfn, hnc, getFileContentArg, cloneRepository, h]
    rfl
  · show ∀ hk ∈ buildHunks (diffComps [] (splitLinesJs nc)), ∀ l ∈ hk.lines, isDelLine l = false
    cases hsp : splitLinesJs nc with
    | nil =>
      intro hk hmem
      rw [show diffComps [] [] = [] from rfl] at hmem
      simp [buildHunks, hunksLoop] at hmem
    | cons x xs =>
      rw [diffComps_nil_cons, buildHunks_added]
      intro hk hmem
      rw [List.mem_singleton] at hmem
      subst hmem
      intro l hl
      simp only [List.mem_map] at hl
      obtain ⟨s, _, rfl⟩ := hl
      rfl
  · refine ⟨renderLines ((buildHunks (diffComps (splitLinesJs "")
      (splitLinesJs nc))).map renderHunk).flatten, ?_⟩
    unfold createPatch formatPatch
    rw [renderLines_append]

/-- C10: every failure of the original-content read — a missing file, a
clone failure, any repository-access failure — is silently treated as a
new file with empty original content: generateFilePatch returns the same
file-creation diff a clone failure would produce, beginning with the
patch header block, not an error patch and not a raised error. -/
theorem claim_c10 (env : CloneOutcome) (fn nc : String)
    (h : ∃ e, (getFileContent env fn).1 = .error e) :
    generateFilePatch env (mkFileEntry fn nc)
      = ({filename := .str fn,
          patch := createPatch fn "" nc ("Original " ++ fn) ("Modified " ++ fn)}, 1) ∧
    (generateFilePatch env (mkFileEntry fn nc)).1
      = (generateFilePatch (.fail "unreachable host") (mkFileEntry fn nc)).1 ∧
    (∃ r, createPatch fn "" nc ("Original " ++ fn) ("Modified " ++ fn)
      = ("Index: " ++ fn ++ "\n") ++ r) := by
  obtain ⟨e, he⟩ := h
  have hfn : jsProp (mkFileEntry fn nc) "filename" = some (.str fn) := rfl
  have hnc : jsProp (mkFileEntry fn nc) "new_content" = some (.str nc) := rfl
  have hmain : generateFilePatch env (mkFileEntry fn nc)
      = ({filename := .str fn,
          patch := createPatch fn "" nc ("Original " ++ fn) ("Modified " ++ fn)}, 1) := by
    cases env with
    | fail m => rfl
    | ok fs =>
      cases hl : lookupRepoFile fs fn with
      | some c =>
        exfalso
        simp [getFileContent, getFileContentArg, cloneRepository, hl] at he
      | none =>
        simp only [generateFilePatch, hfn, hnc, getFileContentArg, cloneRepository, hl]
        rfl
  refine ⟨hmain, ?_, ?_⟩
  · rw [show (generateFilePatch (.fail "unreachable host") (mkFileEntry fn nc)).1
      = {filename := .str fn,
         patch := createPatch fn "" nc ("Original " ++ fn) ("Modified " ++ fn)} from rfl,
      hmain]
  · exact ⟨renderLines ([eqBar,
      "--- " ++ fn ++ "\t" ++ ("Original " ++ fn),
      "+++ " ++ fn ++ "\t" ++ ("Modified " ++ fn)]
        ++ ((buildHunks (diffComps (splitLinesJs "") (splitLinesJs nc))).map
          renderHunk).flatten), rfl⟩

/-- C8, witness: the new-file behaviour evaluated at the concrete empty
checkout, filename new.txt and content hi. -/
theorem claim_c8_witness :
    generateFilePatch (.ok []) (mkFileEntry "new.txt" "hi\n")
      = ({filename := .str "new.txt",
          patch := createPatch "new.txt" "" "hi\n"
            ("Original " ++ "new.txt") ("Modified " ++ "new.txt")}, 1) ∧
    (∀ hk ∈ buildHunks (diffComps (splitLinesJs "") (splitLinesJs "hi\n")),
      ∀ l ∈ hk.lines, isDelLine l = false) ∧
    (∃ rest, createPatch "new.txt" "" "hi\n"
        ("Original " ++ "new.txt") ("Modified " ++ "new.txt")
      = renderLines ["Index: " ++ "new.txt", eqBar,
          "--- " ++ "new.txt" ++ "\t" ++ ("Original " ++ "new.txt"),
          "+++ " ++ "new.txt" ++ "\t" ++ ("Modified " ++ "new.txt")] ++ rest) :=
  claim_c8 [] "new.txt" "hi\n" rfl

/-- C10, witness: a clone failure (network timeout) during the
original-content read still yields the creation diff for the concrete
file a.txt. -/
theorem claim_c10_witness :
    (∃ e, (getFileContent (.fail "network timeout") "a.txt").1 = .error e) ∧
    generateFilePatch (.fail "network timeout") (mkFileEntry "a.txt" "x")
      = ({filename := .str "a.txt",
          patch := createPatch "a.txt" "" "x" ("Original " ++ "a.txt") ("Modified " ++ "a.txt")}, 1) :=
  ⟨⟨"Failed to get file content: network timeout", rfl⟩,
   (claim_c10 (.fail "network timeout") "a.txt" "x"
     ⟨"Failed to get file content: network timeout", rfl⟩).1⟩


/-- The loop makes at most one model call per unit of fuel, and returns
the exceeded-iterations error exactly when all fuel is spent. -/
theorem runAgentLoopAux_bound (env : CloneOutcome) (model : ModelOracle) :
    ∀ (fuel : Nat) (msgs : List Message) (calls clones : Nat),
    (runAgentLoopAux env model fuel msgs calls clones).modelCalls ≤ calls + fuel ∧
    ((runAgentLoopAux env model fuel msgs calls clones).result = .exceededIterations →
      (runAgentLoopAux env model fuel msgs calls clones).modelCalls = calls + fuel) := by
  intro fuel
  induction fuel with
  | zero =>
    intro msgs calls clones
    exact ⟨Nat.le_add_right _ _, fun _ => rfl⟩
  | succ f ih =>
    intro msgs calls clones
    simp only [runAgentLoopAux]
    split
    · split
      · next rs n heq =>
        have h := ih (msgs ++ [Message.assistant (model msgs).content (model msgs).tool_calls]
          ++ rs) (calls + 1) (clones + n)
        exact ⟨le_trans h.1 (by omega), fun hr => by rw [h.2 hr]; omega⟩
      · next e n heq =>
        exact ⟨by show calls + 1 ≤ calls + (f + 1); omega,
          fun hr => absurd hr (fun hx => LoopResult.noConfusion hx)⟩
    · exact ⟨by show calls + 1 ≤ calls + (f + 1); omega,
        fun hr => absurd hr (fun hx => LoopResult.noConfusion hx)⟩

/-- When processToolCalls succeeds, the tool_call_id values of the
produced tool messages are exactly the ids of the tool calls, in issue
order. -/
theorem processToolCalls_ok_ids (env : CloneOutcome) :
    ∀ (tcs : List ToolCall) (rs : List Message) (n : Nat),
    processToolCalls env tcs = (.ok rs, n) → rs.map toolMsgId = tcs.map (·.id) := by
  intro tcs
  induction tcs with
  | nil =>
    intro rs n h
    simp only [processToolCalls, Prod.mk.injEq, Except.ok.injEq] at h
    rw [← h.1]
    rfl
  | cons tc rest ih =>
    intro rs n h
    simp only [processToolCalls] at h
    split at h
    · simp at h
    · split at h
      · next rs0 m heq =>
        simp only [Prod.mk.injEq, Except.ok.injEq] at h
        rw [← h.1]
        simp only [List.map_cons, toolMsgId]
        rw [ih rs0 m heq]
      · simp at h

/-- When parsing or validation of the final content fails, the
final-answer handler returns the degraded result: the truncated summary,
no files, no repository access. -/
theorem parseError_degrades (env : CloneOutcome) (content : Option String) (e : String)
    (h : parseAgentResponse content = .error e) :
    handleFinalAnswer env content = (⟨.str (degradedSummary content), []⟩, 0) := by
  simp [handleFinalAnswer, h]

/-- When the model answers with no tool calls, the loop (with any fuel
left) ends this invocation with the final-answer handler's result. -/
theorem finalAnswer_loop_step (env : CloneOutcome) (model : ModelOracle)
    (msgs : List Message) (n : Nat) (content : Option String)
    (hm : model msgs = ⟨content, []⟩) :
    (runAgentLoop env model msgs (n + 1)).result
      = .done (handleFinalAnswer env content).1 := by
  show (runAgentLoopAux env model (n + 1) msgs 0 0).result = _
  simp only [runAgentLoopAux, hm]
  rw [if_neg (by simp)]

/-- C1: for every clone outcome, model behaviour, initial transcript and
iteration budget, the loop performs at most the budgeted number of
model-response iterations, and it reports the Agent-exceeded-maximum-
iterations error exactly when it used the whole budget without reaching a
final answer or an uncaught exception; the loop is a total function, so
it never runs forever. -/
theorem claim_c1 (env : CloneOutcome) (model : ModelOracle) (msgs : List Message) (n : Nat) :
    (runAgentLoop env model msgs n).modelCalls ≤ n ∧
    ((runAgentLoop env model msgs n).result = .exceededIterations →
      (runAgentLoop env model msgs n).modelCalls = n) := by
  have h := runAgentLoopAux_bound env model n msgs 0 0
  rw [show runAgentLoop env model msgs n = runAgentLoopAux env model n msgs 0 0 from rfl]
  exact ⟨by have := h.1; omega, fun hr => by have := h.2 hr; omega⟩

/-- C1, witness: a model that issues tool calls on every round makes
exactly the default ten model calls and then the loop stops. -/
theorem claim_c1_witness :
    (runAgentLoop (.ok []) toolLoopForeverOracle [] 10).modelCalls ≤ 10 ∧
    (runAgentLoop (.ok []) toolLoopForeverOracle [] 10).modelCalls = 10 :=
  ⟨(claim_c1 (.ok []) toolLoopForeverOracle [] 10).1,
   (claim_c1 (.ok []) toolLoopForeverOracle [] 10).2 rfl⟩

/-- C3: whenever the final assistant content fails parsing or structural
validation, the invocation does not raise: the loop returns a degraded
result whose files list is empty and whose summary is the 200-character
prefix of the raw content (a prefix of the content whenever the content
is a string). -/
theorem claim_c3 (env : CloneOutcome) (content : Option String) (e : String)
    (h : parseAgentResponse content = .error e) :
    (handleFinalAnswer env content).1.files = [] ∧
    (handleFinalAnswer env content).1.summary = .str (degradedSummary content) ∧
    (∀ s, content = some s → ∃ t, s = degradedSummary content ++ t) ∧
    (∀ (model : ModelOracle) (msgs : List Message) (n : Nat),
      model msgs = ⟨content, []⟩ →
      (runAgentLoop env model msgs (n + 1)).result
        = .done (handleFinalAnswer env content).1) := by
  refine ⟨?_, ?_, ?_, ?_⟩
  · rw [parseError_degrades env content e h]
  · rw [parseError_degrades env content e h]
  · intro s hs
    subst hs
    exact ⟨String.mk (s.data.drop 200), jsSubstring_prefix s 200⟩
  · intro model msgs n hm
    exact finalAnswer_loop_step env model msgs n content hm

/-- C3, witness: the unparseable final content not-json produces the
degraded result with that text as summary and no files, and the loop
returns it rather than raising. -/
theorem claim_c3_witness :
    parseAgentResponse (some "not json") = .error "SyntaxError: Unexpected token in JSON" ∧
    (handleFinalAnswer (.ok []) (some "not json")).1.files = [] ∧
    (handleFinalAnswer (.ok []) (some "not json")).1.summary = .str "not json" ∧
    (runAgentLoop (.ok []) (fun _ => ⟨some "not json", []⟩) [] 10).result
      = .done (handleFinalAnswer (.ok []) (some "not json")).1 := by
  refine ⟨rfl, (claim_c3 (.ok []) (some "not json") _ rfl).1, ?_,
    (claim_c3 (.ok []) (some "not json") _ rfl).2.2.2 _ [] 9 rfl⟩
  rw [(claim_c3 (.ok []) (some "not json") _ rfl).2.1]
  rfl

/-- C4, counterexample: the claim says all model-behaviour errors are
absorbed; a model that sends a tool call whose arguments string is
malformed JSON makes the invocation end in an uncaught raise (the
unguarded JSON.parse at line 329), not in a returned result. -/
theorem claim_c4_counterexample :
    (generateCodeFromConversation (.ok []) badArgsOracle "u" "b" []).result
      = .raised ("Unexpected token in JSON: \x7bbad") ∧
    ∀ r, (generateCodeFromConversation (.ok []) badArgsOracle "u" "b" []).result
      ≠ .done r := by
  constructor
  · rfl
  · intro r h
    rw [show (generateCodeFromConversation (.ok []) badArgsOracle "u" "b" []).result
        = .raised ("Unexpected token in JSON: \x7bbad") from rfl] at h
    cases h

/-- C4, amended: model-behaviour errors are absorbed except malformed
tool-call argument JSON: whenever every argument string parses, tool
dispatch always produces one tool-result message per call (unknown tool
names and nonexistent files become error payloads), and a malformed final
answer degrades rather than raises; but a tool call whose arguments do
not parse raises out of the loop. -/
theorem claim_c4_amended :
    (∀ (env : CloneOutcome) (tcs : List ToolCall),
      (∀ tc ∈ tcs, (parseJsonTop (jsArgsOrEmpty tc.arguments)).isSome = true) →
      ∃ rs n, processToolCalls env tcs = (.ok rs, n) ∧ rs.length = tcs.length) ∧
    (∀ (env : CloneOutcome) (args : Json) (name : String),
      ¬ (name = "list_repo_files") → ¬ (name = "get_file_content") →
      executeToolCall env name args
        = (.obj [("error", .str ("Unknown tool: " ++ name))], 0)) ∧
    (∀ (fs : List (String × String)) (p : String), lookupRepoFile fs p = none →
      (getFileContent (.ok fs) p).1
        = .error ("Failed to get file content: File not found: " ++ p)) ∧
    (∀ (env : CloneOutcome) (content : Option String) (e : String),
      parseAgentResponse content = .error e →
      (handleFinalAnswer env content).1.files = [] ∧
      ∀ (model : ModelOracle) (msgs : List Message) (n : Nat),
        model msgs = ⟨content, []⟩ →
        (runAgentLoop env model msgs (n + 1)).result
          = .done (handleFinalAnswer env content).1) := by
  refine ⟨?_, ?_, ?_, ?_⟩
  · intro env tcs
    induction tcs with
    | nil => exact fun _ => ⟨[], 0, rfl, rfl⟩
    | cons tc rest ih =>
      intro hall
      obtain ⟨args, hp⟩ := Option.isSome_iff_exists.mp (hall tc (List.mem_cons_self _ _))
      obtain ⟨rs0, m, hrec, hlen⟩ := ih (fun t ht => hall t (List.mem_cons_of_mem _ ht))
      refine ⟨Message.tool tc.id (stringifyJson (executeToolCall env tc.name args).1) :: rs0,
        (executeToolCall env tc.name args).2 + m, ?_, by simp [hlen]⟩
      simp only [processToolCalls, hp, hrec]
  · intro env args name h1 h2
    simp [executeToolCall, h1, h2]
  · intro fs p h
    simp [getFileContent, getFileContentArg, cloneRepository, h]
  · intro env content e h
    refine ⟨?_, ?_⟩
    · rw [parseError_degrades env content e h]
    · intro model msgs n hm
      exact finalAnswer_loop_step env model msgs n content hm

/-- C4, witness: the absorbed cases evaluated at concrete inputs: a
parseable tool call produces its message, an unknown tool and a missing
file produce error payloads, and an unparseable final answer produces the
degraded empty files list. -/
theorem claim_c4_amended_witness :
    (∃ rs n, processToolCalls (.ok []) [⟨"i1", "list_repo_files", ""⟩] = (.ok rs, n) ∧
      rs.length = 1) ∧
    executeToolCall (.ok []) "frobnicate" (.obj [])
      = (.obj [("error", .str ("Unknown tool: " ++ "frobnicate"))], 0) ∧
    (getFileContent (.ok []) "missing.js").1
      = .error ("Failed to get file content: File not found: " ++ "missing.js") ∧
    (handleFinalAnswer (.ok []) (some "oops")).1.files = [] := by
  refine ⟨claim_c4_amended.1 _ _ ?_,
    claim_c4_amended.2.1 _ _ _ (by decide) (by decide),
    claim_c4_amended.2.2.1 _ _ rfl,
    (claim_c4_amended.2.2.2 (.ok []) (some "oops") _ rfl).1⟩
  intro tc htc
  rw [List.mem_singleton] at htc
  subst htc
  rfl

/-- C5: whenever the tool calls of an assistant message are processed
successfully, the appended tool messages carry exactly the ids of the
originating tool calls in issue order, and (the provider issuing distinct
ids) each id appears exactly once among them. -/
theorem claim_c5 (env : CloneOutcome) (tcs : List ToolCall) (rs : List Message) (n : Nat)
    (h : processToolCalls env tcs = (.ok rs, n)) :
    rs.map toolMsgId = tcs.map (·.id) ∧
    ((tcs.map (·.id)).Nodup → ∀ tid ∈ tcs.map (·.id),
      (rs.map toolMsgId).countP (fun b => decide (b = tid)) = 1) := by
  have hm := processToolCalls_ok_ids env tcs rs n h
  refine ⟨hm, fun hnd tid htid => ?_⟩
  rw [hm]
  exact countP_eq_one_of_nodup _ _ hnd htid

/-- C5, witness: two concrete tool calls produce exactly two tool
messages with ids id1 and id2 in order, id1 appearing once. -/
theorem claim_c5_witness :
    ∃ rs n, processToolCalls (.ok [("a.txt", "x")])
        [⟨"id1", "list_repo_files", ""⟩,
         ⟨"id2", "get_file_content", "\x7b\"filePath\":\"a.txt\"\x7d"⟩] = (.ok rs, n) ∧
      rs.map toolMsgId = ["id1", "id2"] ∧
      (rs.map toolMsgId).countP (fun b => decide (b = "id1")) = 1 := by
  have h := claim_c5 (.ok [("a.txt", "x")])
    [⟨"id1", "list_repo_files", ""⟩,
     ⟨"id2", "get_file_content", "\x7b\"filePath\":\"a.txt\"\x7d"⟩]
    [Message.tool "id1" "\x7b\"files\":[\"a.txt\"]\x7d",
     Message.tool "id2" "\x7b\"content\":\"x\"\x7d"] 2 rfl
  exact ⟨[Message.tool "id1" "\x7b\"files\":[\"a.txt\"]\x7d",
    Message.tool "id2" "\x7b\"content\":\"x\"\x7d"], 2, rfl, h.1,
    h.2 (by decide) "id1" (by decide)⟩

end VoiceCoordinator
